import Mathlib

/-!
Verification of the audio validation engine (`scripts/validate_audio.py`).

The script is shallowly embedded here: samples decoded from a WAV file are
modelled as `PyFloat` values (a rational for a finite float, plus NaN and the
two infinities), file-system observations made by the script (`path.exists()`,
`path.stat().st_size`, the outcome of `load_audio`) are fields of `AudioFile`,
and each diagnostic message produced by the script is a constructor of `Msg`
carrying the data that the source interpolates into the message string.
Arithmetic on samples is exact (ℚ/ℝ), mirroring the source expressions.
-/

namespace ValidateAudio

/-- A decoded sample as a Python float: a rational value, or one of the
non-finite floats NaN, `inf`, `-inf`. -/
inductive PyFloat
  | nan
  | posInf
  | negInf
  | val (x : ℚ)
deriving DecidableEq

/-- The test `x != x or x == float("inf") or x == float("-inf")` from
`validate_one`: true exactly on the three non-finite floats (NaN is the only
float with `x != x`; a finite rational value never equals an infinity). -/
def PyFloat.nonFinite : PyFloat → Bool
  | .val _ => false
  | _ => true

/-- The rational value of a finite sample.  Call sites are guarded by the
NaN/Inf check of `validate_one`, so the default `0` for non-finite floats is
never observed there. -/
def PyFloat.toRat : PyFloat → ℚ
  | .val x => x
  | _ => 0

/-- Statistics `_stats(samples)` up to the final square root: returns
`(mean, max 0 variance)` with `mean = sum(samples)/n` and
`variance = sum((x - mean)^2)/n`, and `(0, 0)` for the empty list.
The source returns `(mean, max(0.0, variance) ** 0.5)`; the square root is
applied by `stdOf` below so that this definition stays executable over ℚ. -/
def _stats (samples : List ℚ) : ℚ × ℚ :=
  if samples.length = 0 then (0, 0)
  else
    let n : ℚ := samples.length
    let mean := samples.sum / n
    let variance := (samples.map (fun x => (x - mean) ^ 2)).sum / n
    (mean, max 0 variance)

/-- The standard deviation returned by `_stats`:
`max(0.0, variance) ** 0.5`. -/
noncomputable def stdOf (samples : List ℚ) : ℝ :=
  Real.sqrt ((_stats samples).2 : ℝ)

/-- Peak `max(abs(x) for x in samples)`, with `0` for the empty list (the
`if samples else 0` guard of `compare_files`).  Folding `max` against `0` is
exact here because every `|x|` is nonnegative. -/
def peakOf (samples : List ℚ) : ℚ :=
  (samples.map (fun x => |x|)).foldr max 0

/-- Decoding of a 16-bit little-endian word to a signed integer, as `struct.unpack("<h", ·)`
does in `_load_wav_stdlib`. -/
def toInt16 (w : ℕ) : ℤ :=
  if w < 32768 then (w : ℤ) else (w : ℤ) - 65536

/-- The dependency-free fallback decoder `_load_wav_stdlib`, at the sample
level: every unpacked 16-bit PCM sample `s` is normalized to `s / 32768.0`. -/
def _load_wav_stdlib (words : List ℕ) : List ℚ :=
  words.map (fun w => (toInt16 w : ℚ) / 32768)

/-- Decoded audio as returned by `load_audio`: flat channel-interleaved
samples, sample rate, channel count. -/
structure Waveform where
  samples : List PyFloat
  rate : ℕ
  channels : ℕ

/-- What `validate_one` observes about one path: `path.exists()`,
`path.stat().st_size`, and the outcome of `load_audio(path)` (`.error e`
models a raised exception with text `e`). -/
structure AudioFile where
  present : Bool
  size : ℕ
  load : Except String Waveform

/-- The threshold parameters of `validate_one` and `main`. -/
structure Cfg where
  min_std : ℚ
  min_peak : ℚ
  expected_duration : Option ℚ
  duration_tolerance : ℚ

/-- The parameter defaults of `validate_one`:
`min_std=0.001`, `min_peak=0.01`, no expected duration, tolerance `0.5`. -/
def defaultCfg : Cfg :=
  ⟨1 / 1000, 1 / 100, none, 1 / 2⟩

/-- The stereo-independence information appended to a passing message:
nothing (not a 2-channel file with at least 4 samples), the
`WARN:channels_identical` tag, or the numeric `stereo_diff` value. -/
inductive StereoInfo
  | absent
  | channelsIdentical
  | diff (avg : ℚ)
deriving DecidableEq

/-- Each diagnostic message of `validate_one`, one constructor per `return`
statement of the source, carrying the data interpolated into the string.
The `ok` message stores the squared std (see `_stats`); its
spectral-flatness field is modelled separately by `_spectral_flatness`,
which does not influence the verdict. -/
inductive Msg
  | skipMissing
  | emptyFile
  | decodeError (e : String)
  | noSamples
  | nanOrInf
  | nearlyConstant (stdSq minStd : ℚ)
  | silent (peak minPeak : ℚ)
  | durationMismatch (expected actual tolerance : ℚ)
  | ok (stdSq peak duration : ℚ) (rate channels : ℕ)
      (chStats : List (ℚ × ℚ)) (stereo : StereoInfo)
deriving DecidableEq

/-- True exactly on the verdict that reports a decoder error. -/
def Msg.isDecodeErr : Msg → Bool
  | .decodeError _ => true
  | _ => false

/-- The finite rational values of the decoded samples.  In `validate_one`
this is only used after the NaN/Inf check has passed, where it is the
identity on every sample. -/
def ratSamples (w : Waveform) : List ℚ :=
  w.samples.map PyFloat.toRat

/-- The source computes `std = max(0.0, variance) ** 0.5` and tests
`std <= min_std`.  Over exact reals that test is `max 0 variance ≤ min_std ^ 2`
when `0 ≤ min_std` and false otherwise (`stdLe_iff` below); this encoding
keeps the check executable over ℚ. -/
def stdLe (stdSq m : ℚ) : Bool :=
  if m < 0 then false else decide (stdSq ≤ m ^ 2)

/-- Python extended slice `l[off::step]`: the elements whose index is
congruent to `off` modulo `step`.  Faithful for `off < step` and
`0 < step`, which holds at every call site (`_channel_stats`,
`_spectral_flatness`, the stereo check). -/
def strideAt (l : List α) (off step : ℕ) : List α :=
  (l.enum.filter (fun p => p.1 % step == off)).map Prod.snd

/-- Per-channel statistics `_channel_stats(samples, channels)`: `(mean, max 0 variance)`
via strided extraction (see `_stats` for the squared-std convention). -/
def _channel_stats (samples : List ℚ) (channels : ℕ) : List (ℚ × ℚ) :=
  if channels ≤ 1 then [_stats samples]
  else (List.range channels).map (fun ch => _stats (strideAt samples ch channels))

/-- Duration `(len(samples) // max(channels, 1)) / rate if rate > 0 else 0`:
note the floor division on the sample count. -/
def durationOf (w : Waveform) : ℚ :=
  if w.rate > 0 then ((w.samples.length / max w.channels 1 : ℕ) : ℚ) / (w.rate : ℚ)
  else 0

/-- The duration test of `validate_one`: an expected duration was supplied,
is positive, and the actual duration differs by more than the tolerance. -/
def durationBad (cfg : Cfg) (d : ℚ) : Bool :=
  match cfg.expected_duration with
  | none => false
  | some ed => decide (0 < ed) && decide (|d - ed| > cfg.duration_tolerance)

/-- The left/right sample pairs examined by the stereo-independence check:
`left = samples[0::2]`, `right = samples[1::2]`, indices
`range(min(len(left), len(right), 10000))`.  Zipping truncates to the
shorter channel and `take` bounds the count, exactly as the `min` does. -/
def checkedPairs (samples : List ℚ) : List (ℚ × ℚ) :=
  ((strideAt samples 0 2).zip (strideAt samples 1 2)).take 10000

/-- Average difference `avg_diff`: the mean absolute left/right difference over the checked
pairs, `0` when no pair is checked (`if n_check > 0 else 0`). -/
def avgAbsDiff (samples : List ℚ) : ℚ :=
  if 0 < (checkedPairs samples).length then
    (((checkedPairs samples).map (fun p => |p.1 - p.2|)).sum) /
      ((checkedPairs samples).length : ℚ)
  else 0

/-- The stereo-independence check: only for exactly 2 channels with at least
4 interleaved samples; the `channels_identical` tag exactly when the average
absolute difference is below `1e-6`, the numeric difference otherwise. -/
def stereoOf (samples : List ℚ) (channels : ℕ) : StereoInfo :=
  if channels = 2 ∧ 4 ≤ samples.length then
    if avgAbsDiff samples < 1 / 1000000 then .channelsIdentical
    else .diff (avgAbsDiff samples)
  else .absent

/-- Verdict `validate_one(path, min_std, min_peak, expected_duration,
duration_tolerance)`: the verdict `(passed, message)` for one file, with the
checks applied in source order. -/
def validate_one (cfg : Cfg) (f : AudioFile) : Bool × Msg :=
  if f.present = false then (true, .skipMissing)
  else if f.size = 0 then (false, .emptyFile)
  else
    match f.load with
    | .error e => (false, .decodeError e)
    | .ok w =>
      if w.samples = [] then (false, .noSamples)
      else if w.samples.any PyFloat.nonFinite then (false, .nanOrInf)
      else if stdLe (_stats (ratSamples w)).2 cfg.min_std then
        (false, .nearlyConstant (_stats (ratSamples w)).2 cfg.min_std)
      else if peakOf (ratSamples w) < cfg.min_peak then
        (false, .silent (peakOf (ratSamples w)) cfg.min_peak)
      else if durationBad cfg (durationOf w) then
        (false, .durationMismatch (cfg.expected_duration.getD 0) (durationOf w)
          cfg.duration_tolerance)
      else
        (true, .ok (_stats (ratSamples w)).2 (peakOf (ratSamples w)) (durationOf w)
          w.rate w.channels (_channel_stats (ratSamples w) w.channels)
          (stereoOf (ratSamples w) w.channels))

/-- The exit code of `main`: `0` when no paths are supplied, otherwise `0`
exactly when every file's verdict passed, else `1`. -/
def mainExit (cfg : Cfg) (files : List AudioFile) : ℕ :=
  if files.isEmpty then 0
  else if files.all (fun f => (validate_one cfg f).1) then 0 else 1

/-- The first early `return` of a sequence of checks, else the fallback. -/
def firstSome : List (Option (Bool × Msg)) → (Bool × Msg) → (Bool × Msg)
  | [], d => d
  | some v :: _, _ => v
  | none :: rest, d => firstSome rest d

/-- The eight checks of `validate_one` in source order, each as the verdict
it early-returns when it triggers: missing path, empty file, decode failure,
no samples, NaN/Inf, std, peak, duration. -/
def checkList (cfg : Cfg) (f : AudioFile) : List (Option (Bool × Msg)) :=
  [ if f.present = false then some (true, .skipMissing) else none,
    if f.size = 0 then some (false, .emptyFile) else none,
    match f.load with
    | .error e => some (false, .decodeError e)
    | .ok _ => none,
    match f.load with
    | .error _ => none
    | .ok w => if w.samples = [] then some (false, .noSamples) else none,
    match f.load with
    | .error _ => none
    | .ok w => if w.samples.any PyFloat.nonFinite then some (false, .nanOrInf) else none,
    match f.load with
    | .error _ => none
    | .ok w =>
      if stdLe (_stats (ratSamples w)).2 cfg.min_std then
        some (false, .nearlyConstant (_stats (ratSamples w)).2 cfg.min_std)
      else none,
    match f.load with
    | .error _ => none
    | .ok w =>
      if peakOf (ratSamples w) < cfg.min_peak then
        some (false, .silent (peakOf (ratSamples w)) cfg.min_peak)
      else none,
    match f.load with
    | .error _ => none
    | .ok w =>
      if durationBad cfg (durationOf w) then
        some (false, .durationMismatch (cfg.expected_duration.getD 0) (durationOf w)
          cfg.duration_tolerance)
      else none ]

/-- The verdict when every check falls through: the passing `ok` message.
On a decode failure this fallback is never consulted (check 3 triggers); it
repeats that check's verdict so the function is total. -/
def okVerdict (_cfg : Cfg) (f : AudioFile) : Bool × Msg :=
  match f.load with
  | .error e => (false, .decodeError e)
  | .ok w =>
    (true, .ok (_stats (ratSamples w)).2 (peakOf (ratSamples w)) (durationOf w)
      w.rate w.channels (_channel_stats (ratSamples w) w.channels)
      (stereoOf (ratSamples w) w.channels))

/-- A path as `compare_files` sees it: its basename `p.name` (the dict key
of `results`) and the file on disk. -/
structure NamedFile where
  name : String
  file : AudioFile

/-- One value of the `results` dict of `compare_files`:
`(mean, squared std, peak)` (see `_stats` for the squared-std convention). -/
abbrev Entry := ℚ × ℚ × ℚ

/-- Python dict assignment `results[k] = v` on an insertion-ordered
association list: an existing key is updated in place, keeping its
position; a new key is appended. -/
def dictInsert (d : List (String × Entry)) (k : String) (v : Entry) :
    List (String × Entry) :=
  if k ∈ d.map Prod.fst then d.map (fun p => if p.1 = k then (k, v) else p)
  else d ++ [(k, v)]

/-- The loop body guards of `compare_files`: a missing path is skipped, a
path whose load raises is skipped, otherwise `(mean, std, peak)` is
recorded.  (`compare_files` applies no NaN/Inf filtering; the stats are
taken over the finite values of the decoded samples.) -/
def loadEntry (f : AudioFile) : Option Entry :=
  if f.present = false then none
  else
    match f.load with
    | .error _ => none
    | .ok w =>
      some ((_stats (ratSamples w)).1, (_stats (ratSamples w)).2, peakOf (ratSamples w))

/-- Ratio `a / b if b > 0 else float("inf")`: `none` models the infinity. -/
def ratioOrInf (a b : ℚ) : Option ℚ :=
  if 0 < b then some (a / b) else none

/-- One printed line of the comparison report.  `comparison` carries the
mean difference and the two ratios of the first two files; the std ratio is
carried squared because entries store the squared std (`s1/s2` of the
source is the square root of the stored value, infinite exactly when the
stored one is). -/
inductive ReportLine
  | header
  | fileSummary (name : String) (mean stdSq peak : ℚ)
  | comparison (name1 name2 : String) (meanDiff : ℚ) (stdRatioSq peakRatio : Option ℚ)
deriving DecidableEq

/-- The labelled `name: mean=… std=… peak=…` line of one file. -/
def summaryLine (p : String × Entry) : ReportLine :=
  .fileSummary p.1 p.2.1 p.2.2.1 p.2.2.2

/-- The `mean_diff / std_ratio / peak_ratio` line comparing two entries. -/
def mkComparison (p1 p2 : String × Entry) : ReportLine :=
  .comparison p1.1 p2.1 |p1.2.1 - p2.2.1|
    (ratioOrInf p1.2.2.1 p2.2.2.1) (ratioOrInf p1.2.2.2 p2.2.2.2)

/-- The `results` dict of `compare_files` after its loading loop. -/
def resultsOf (paths : List NamedFile) : List (String × Entry) :=
  paths.foldl
    (fun d p =>
      match loadEntry p.file with
      | none => d
      | some e => dictInsert d p.name e) []

/-- Report `compare_files(paths)`.  Iterating `for name in results` and indexing
`results[name]` in the source equals iterating the entries directly, since
`dictInsert` keeps keys unique. -/
def compare_files (paths : List NamedFile) : List ReportLine :=
  if paths.length < 2 then []
  else if (resultsOf paths).length < 2 then []
  else
    ReportLine.header ::
      ((resultsOf paths).map summaryLine ++
        match resultsOf paths with
        | p1 :: p2 :: _ => [mkComparison p1 p2]
        | _ => [])

/-- The existing, successfully decoded files of a path list, in input
order, with their entries. -/
def loadedOf (paths : List NamedFile) : List (String × Entry) :=
  paths.filterMap (fun p => (loadEntry p.file).map (fun e => (p.name, e)))

/-- Channel reduction of `_spectral_flatness`: `arr[::channels]` (channel 0
only) when `channels > 1`. -/
def channelReduce (samples : List α) (channels : ℕ) : List α :=
  if 1 < channels then strideAt samples 0 channels else samples

/-- The magnitude `abs(np.fft.rfft(x))[k]`: absolute value of the discrete
Fourier transform of the real signal `x` at bin `k`. -/
noncomputable def rfftMag (x : List ℝ) (k : ℕ) : ℝ :=
  Complex.abs (∑ j ∈ Finset.range x.length,
    ((x.getD j 0 : ℝ) : ℂ) *
      Complex.exp (-(2 * (Real.pi : ℂ) * Complex.I * (j : ℂ) * (k : ℂ)) / (x.length : ℂ)))

/-- The adjusted magnitude spectrum of `_spectral_flatness`: the one-sided
spectrum bins `0 … len/2` of the (already prefix-bounded) signal, the DC
bin dropped, `1e-10` added to every bin. -/
noncomputable def adjMags (x : List ℝ) : List ℝ :=
  (((List.range (x.length / 2 + 1)).map (rfftMag x)).drop 1).map
    (fun m => m + 1 / 10 ^ 10)

/-- Arithmetic mean `np.mean(fft)` of the magnitude list. -/
noncomputable def arithMean (mags : List ℝ) : ℝ :=
  mags.sum / mags.length

/-- Geometric mean `np.exp(np.mean(np.log(fft)))` of the magnitude
list, computed through logarithms. -/
noncomputable def geoMean (mags : List ℝ) : ℝ :=
  Real.exp ((mags.map Real.log).sum / mags.length)

/-- Flatness `_spectral_flatness(samples, channels)`, with the availability of the FFT
facility (numpy) as an explicit input.  Sentinel `-1` when numpy is missing
or fewer than 256 samples remain after channel reduction; `0` on the
near-silent guard; otherwise geometric over arithmetic mean of the
adjusted magnitudes of a `65536`-sample prefix. -/
noncomputable def _spectral_flatness (npAvailable : Bool) (samples : List ℝ)
    (channels : ℕ) : ℝ :=
  if npAvailable = false then -1
  else if (channelReduce samples channels).length < 256 then -1
  else if arithMean (adjMags ((channelReduce samples channels).take 65536)) < 1 / 10 ^ 10
    then 0
  else
    geoMean (adjMags ((channelReduce samples channels).take 65536)) /
      arithMean (adjMags ((channelReduce samples channels).take 65536))

/-! ### Helper lemmas about the statistics -/

/-- A sum of squared deviations can only vanish when every element equals the
reference point. -/
lemma eq_of_sum_sq_eq_zero (m : ℚ) :
    ∀ (l : List ℚ), (l.map (fun x => (x - m) ^ 2)).sum = 0 → ∀ x ∈ l, x = m := by
  intro l
  induction l with
  | nil => intro _ x hx; cases hx
  | cons a t ih =>
    intro h x hx
    rw [List.map_cons, List.sum_cons] at h
    have ht : 0 ≤ (t.map (fun x => (x - m) ^ 2)).sum :=
      List.sum_nonneg (by
        intro y hy
        rcases List.mem_map.mp hy with ⟨z, _, rfl⟩
        positivity)
    have ha : 0 ≤ (a - m) ^ 2 := by positivity
    have h1 : (a - m) ^ 2 = 0 := by linarith
    have h2 : (t.map (fun x => (x - m) ^ 2)).sum = 0 := by linarith
    rcases List.mem_cons.mp hx with rfl | hxt
    · have := pow_eq_zero_iff (n := 2) (by norm_num) |>.mp h1
      linarith [sub_eq_zero.mp this]
    · exact ih h2 x hxt

lemma stats_snd_nonneg (s : List ℚ) : 0 ≤ (_stats s).2 := by
  unfold _stats
  split
  · simp
  · exact le_max_left _ _

lemma variance_sum_nonneg (s : List ℚ) (m : ℚ) :
    0 ≤ (s.map (fun x => (x - m) ^ 2)).sum :=
  List.sum_nonneg (by
    intro y hy
    rcases List.mem_map.mp hy with ⟨z, _, rfl⟩
    positivity)

/-! ### Claims C4, C6, C7 -/

/-- Claim C4: for every sample sequence, `std == 0` implies every sample equals
the returned mean exactly; conversely, for every constant sequence of any
length the returned std is `0`. -/
theorem c4_std_zero_iff_constant :
    (∀ s : List ℚ, stdOf s = 0 → ∀ x ∈ s, x = (_stats s).1) ∧
    (∀ (c : ℚ) (n : ℕ), stdOf (List.replicate n c) = 0) := by
  constructor
  · intro s hstd x hx
    have hs : s ≠ [] := by rintro rfl; cases hx
    have hlen : s.length ≠ 0 := by simpa using hs
    have hv0 : ((_stats s).2 : ℝ) ≤ 0 := Real.sqrt_eq_zero'.mp hstd
    have hv0' : (_stats s).2 ≤ 0 := by exact_mod_cast hv0
    have hv : (_stats s).2 = 0 := le_antisymm hv0' (stats_snd_nonneg s)
    unfold _stats at hv ⊢
    rw [if_neg hlen] at hv ⊢
    simp only at hv ⊢
    set n : ℚ := (s.length : ℚ) with hn
    set m : ℚ := s.sum / n with hm
    have hnpos : 0 < n := by
      rw [hn]
      exact_mod_cast Nat.pos_of_ne_zero hlen
    have hsum : (s.map (fun x => (x - m) ^ 2)).sum / n = 0 := by
      rcases max_eq_iff.mp hv with ⟨_, h⟩ | ⟨h, _⟩
      · exact le_antisymm h (div_nonneg (variance_sum_nonneg s m) hnpos.le)
      · exact h
    have : (s.map (fun x => (x - m) ^ 2)).sum = 0 := by
      field_simp at hsum
      exact hsum
    exact eq_of_sum_sq_eq_zero m s this x hx
  · intro c n
    unfold stdOf _stats
    rcases Nat.eq_zero_or_pos n with rfl | hn
    · simp
    have hlen : (List.replicate n c).length ≠ 0 := by simpa using hn.ne'
    rw [if_neg hlen]
    have hmean : (List.replicate n c).sum / (n : ℚ) = c := by
      rw [List.sum_replicate]
      simp only [nsmul_eq_mul]
      have : (n : ℚ) ≠ 0 := by exact_mod_cast hn.ne'
      field_simp
    simp only [List.length_replicate]
    rw [hmean]
    have : (List.replicate n c).map (fun x => (x - c) ^ 2) = List.replicate n 0 := by
      rw [List.map_replicate]
      simp
    rw [this, List.sum_replicate]
    simp

/-- Witness for C4 at the concrete constant sequence `[1, 1]`. -/
theorem c4_std_zero_iff_constant_witness :
    (1 : ℚ) = (_stats [1, 1]).1 := by
  have hstd : stdOf [(1 : ℚ), 1] = 0 := by
    have := c4_std_zero_iff_constant.2 1 2
    simpa [List.replicate] using this
  exact c4_std_zero_iff_constant.1 [1, 1] hstd 1 (by simp)

/-- Claim C6: the statistics engine on the empty sequence returns exactly
`(0, 0)` and the peak of an empty sequence is `0`; on a non-empty sequence of
length `n` the mean is `sum(x)/n` and the std is
`sqrt (max 0 (sum((x - mean)^2)/n))`. -/
theorem c6_stats_empty_and_formulas :
    _stats [] = (0, 0) ∧ peakOf [] = 0 ∧
    (∀ s : List ℚ, s ≠ [] →
      (_stats s).1 = s.sum / (s.length : ℚ) ∧
      stdOf s =
        Real.sqrt
          ((max 0 ((s.map (fun x => (x - s.sum / (s.length : ℚ)) ^ 2)).sum /
            (s.length : ℚ)) : ℚ) : ℝ)) := by
  refine ⟨rfl, rfl, ?_⟩
  intro s hs
  have hlen : s.length ≠ 0 := by simpa using hs
  constructor
  · unfold _stats
    rw [if_neg hlen]
  · unfold stdOf _stats
    rw [if_neg hlen]

/-- Witness for C6 at the concrete sequence `[1, 3]`. -/
theorem c6_stats_empty_and_formulas_witness :
    (_stats [1, 3]).1 = ([(1 : ℚ), 3].sum / (([(1 : ℚ), 3].length : ℕ) : ℚ)) :=
  (c6_stats_empty_and_formulas.2.2 [1, 3] (by simp)).1

/-- Claim C7: the fallback decoder normalizes every 16-bit PCM sample `s` to
`s / 32768`; every decoded sample lies in `[-1, 32767/32768]`, and the most
negative sample (word `32768`, i.e. `-32768`) maps to exactly `-1`. -/
theorem c7_pcm16_normalization :
    (∀ w : ℕ, w < 65536 →
      -1 ≤ (toInt16 w : ℚ) / 32768 ∧ (toInt16 w : ℚ) / 32768 ≤ 32767 / 32768) ∧
    (toInt16 32768 : ℚ) / 32768 = -1 ∧
    (∀ words : List ℕ, (∀ w ∈ words, w < 65536) →
      ∀ x ∈ _load_wav_stdlib words, -1 ≤ x ∧ x ≤ 32767 / 32768) := by
  have hbounds : ∀ w : ℕ, w < 65536 → -32768 ≤ toInt16 w ∧ toInt16 w ≤ 32767 := by
    intro w hw
    unfold toInt16
    split <;> omega
  have hmain : ∀ w : ℕ, w < 65536 →
      -1 ≤ (toInt16 w : ℚ) / 32768 ∧ (toInt16 w : ℚ) / 32768 ≤ 32767 / 32768 := by
    intro w hw
    obtain ⟨hlo, hhi⟩ := hbounds w hw
    have hlo' : (-32768 : ℚ) ≤ (toInt16 w : ℚ) := by exact_mod_cast hlo
    have hhi' : (toInt16 w : ℚ) ≤ 32767 := by exact_mod_cast hhi
    constructor <;> linarith
  refine ⟨hmain, ?_, ?_⟩
  · norm_num [toInt16]
  · intro words hws x hx
    rcases List.mem_map.mp hx with ⟨w, hw, rfl⟩
    exact hmain w (hws w hw)

/-- Witness for C7 at the concrete words `40000` (negative sample) and the
word list `[0, 32768]`. -/
theorem c7_pcm16_normalization_witness :
    (-1 ≤ (toInt16 40000 : ℚ) / 32768 ∧ (toInt16 40000 : ℚ) / 32768 ≤ 32767 / 32768) ∧
    (-1 ≤ ((toInt16 0 : ℚ) / 32768) ∧ (toInt16 0 : ℚ) / 32768 ≤ 32767 / 32768) :=
  ⟨c7_pcm16_normalization.1 40000 (by norm_num),
   c7_pcm16_normalization.2.2 [0, 32768] (by norm_num) ((toInt16 0 : ℚ) / 32768)
     (by simp [_load_wav_stdlib])⟩

/-- The `stdLe` encoding agrees with the source comparison
`sqrt (max 0 variance) <= min_std` over exact reals. -/
lemma stdLe_iff (v m : ℚ) : stdLe v m = true ↔ Real.sqrt (v : ℝ) ≤ (m : ℝ) := by
  unfold stdLe
  rw [Real.sqrt_le_iff]
  split
  · rename_i hm
    constructor
    · intro h; cases h
    · rintro ⟨h0, _⟩
      have : (0 : ℚ) ≤ m := by exact_mod_cast h0
      exfalso; linarith
  · rename_i hm
    push_neg at hm
    rw [decide_eq_true_iff]
    constructor
    · intro h
      refine ⟨by exact_mod_cast hm, ?_⟩
      exact_mod_cast h
    · rintro ⟨_, h⟩
      exact_mod_cast h

/-! ### Claims C3, C8, C9, C1 -/

/-- Claim C3: validation applies its checks in the fixed source order with
the first triggering check deciding the verdict; in particular any decoded
non-empty sample sequence containing a NaN or infinity fails with the
`NaN or Inf in samples` message, whatever the other samples are. -/
theorem c3_first_failing_check_wins :
    (∀ (cfg : Cfg) (f : AudioFile),
      validate_one cfg f = firstSome (checkList cfg f) (okVerdict cfg f)) ∧
    (∀ (cfg : Cfg) (f : AudioFile) (w : Waveform),
      f.present = true → f.size ≠ 0 → f.load = .ok w →
      w.samples ≠ [] → w.samples.any PyFloat.nonFinite = true →
      validate_one cfg f = (false, Msg.nanOrInf)) := by
  constructor
  · intro cfg f
    rcases f with ⟨present, size, load⟩
    cases load <;>
      simp only [validate_one, checkList, okVerdict, firstSome] <;>
      split_ifs <;>
      simp_all [firstSome]
  · intro cfg f w hp hs hl hne hnan
    rcases f with ⟨present, size, load⟩
    simp only at hp hs hl
    subst hp; subst hl
    simp [validate_one, hs, hne, hnan]

/-- Witness for C3: a two-sample mono waveform with one NaN sample fails
with the NaN/Inf message. -/
theorem c3_first_failing_check_wins_witness :
    validate_one defaultCfg ⟨true, 4, .ok ⟨[.val (1/2), .nan], 10, 1⟩⟩
      = (false, Msg.nanOrInf) :=
  c3_first_failing_check_wins.2 defaultCfg ⟨true, 4, .ok ⟨[.val (1/2), .nan], 10, 1⟩⟩
    ⟨[.val (1/2), .nan], 10, 1⟩ rfl (by norm_num) rfl (by simp) (by simp [PyFloat.nonFinite])

/-- Claim C8: the exit code is `0` exactly when every supplied file passed
validation; a missing path passes with the `skip (missing)` message; with no
paths the exit code is `0`. -/
theorem c8_exit_code :
    (∀ (cfg : Cfg) (files : List AudioFile),
      mainExit cfg files = 0 ↔ ∀ f ∈ files, (validate_one cfg f).1 = true) ∧
    (∀ (cfg : Cfg) (f : AudioFile), f.present = false →
      validate_one cfg f = (true, Msg.skipMissing)) ∧
    (∀ cfg : Cfg, mainExit cfg [] = 0) := by
  refine ⟨?_, ?_, ?_⟩
  · intro cfg files
    unfold mainExit
    rcases files with _ | ⟨f, fs⟩
    · simp
    · rw [if_neg (by simp)]
      split_ifs with hall
      · rw [List.all_eq_true] at hall
        exact iff_of_true rfl hall
      · rw [List.all_eq_true] at hall
        exact iff_of_false (by norm_num) hall
  · intro cfg f hp
    simp [validate_one, hp]
  · intro cfg
    rfl

/-- Witness for C8: the empty path list and a concrete missing file. -/
theorem c8_exit_code_witness :
    mainExit defaultCfg [] = 0 ∧
    validate_one defaultCfg ⟨false, 0, .error "unused"⟩ = (true, Msg.skipMissing) :=
  ⟨c8_exit_code.2.2 defaultCfg, c8_exit_code.2.1 defaultCfg ⟨false, 0, .error "unused"⟩ rfl⟩

/-- Claim C9: the stereo-independence check runs exactly for 2 channels with
at least 4 interleaved samples; its average is taken over
`min(sample-pairs, 10000)` pairs; the `channels_identical` tag appears
exactly when that average is below `1e-6`, the numeric average otherwise;
identical channels trigger the tag, a (non-trivially) phase-inverted right
channel does not. -/
theorem c9_stereo_check :
    (∀ (samples : List ℚ) (channels : ℕ),
      stereoOf samples channels = .absent ↔ ¬(channels = 2 ∧ 4 ≤ samples.length)) ∧
    (∀ samples : List ℚ,
      (checkedPairs samples).length =
        min (min (strideAt samples 0 2).length (strideAt samples 1 2).length) 10000) ∧
    (∀ samples : List ℚ, 4 ≤ samples.length →
      (stereoOf samples 2 = .channelsIdentical ↔ avgAbsDiff samples < 1 / 1000000) ∧
      (¬ avgAbsDiff samples < 1 / 1000000 →
        stereoOf samples 2 = .diff (avgAbsDiff samples))) ∧
    (∀ samples : List ℚ, 4 ≤ samples.length →
      (∀ p ∈ checkedPairs samples, p.1 = p.2) →
      stereoOf samples 2 = .channelsIdentical) ∧
    (∀ samples : List ℚ, 4 ≤ samples.length →
      (∀ p ∈ checkedPairs samples, p.2 = -p.1) →
      1 / 2000000 ≤
        ((checkedPairs samples).map (fun p => |p.1|)).sum /
          ((checkedPairs samples).length : ℚ) →
      stereoOf samples 2 = .diff (avgAbsDiff samples)) := by
  have hcond : ∀ samples : List ℚ, 4 ≤ samples.length →
      ((2 : ℕ) = 2 ∧ 4 ≤ samples.length) := fun _ h => ⟨rfl, h⟩
  refine ⟨?_, ?_, ?_, ?_, ?_⟩
  · intro samples channels
    unfold stereoOf
    split
    · rename_i h
      split <;>
        exact iff_of_false (by simp) (by simpa using h)
    · rename_i h
      exact iff_of_true rfl h
  · intro samples
    simp [checkedPairs, List.length_take, List.length_zip, Nat.min_comm]
  · intro samples hlen
    unfold stereoOf
    rw [if_pos (hcond samples hlen)]
    split_ifs with havg
    · exact ⟨iff_of_true rfl havg, fun h => absurd havg h⟩
    · exact ⟨iff_of_false (by simp) havg, fun _ => rfl⟩
  · intro samples hlen hid
    have hzero : avgAbsDiff samples = 0 := by
      unfold avgAbsDiff
      have : ((checkedPairs samples).map (fun p => |p.1 - p.2|)).sum = 0 := by
        apply List.sum_eq_zero
        intro x hx
        rcases List.mem_map.mp hx with ⟨p, hp, rfl⟩
        rw [hid p hp]
        simp
      split <;> simp [this]
    unfold stereoOf
    rw [if_pos (hcond samples hlen)]
    rw [if_pos (by rw [hzero]; norm_num)]
  · intro samples hlen hinv hmean
    set pairs := checkedPairs samples with hpairs
    have hn : pairs.length ≠ 0 := by
      intro h0
      rw [h0] at hmean
      norm_num at hmean
    have hsum : (pairs.map (fun p => |p.1 - p.2|)).sum =
        2 * (pairs.map (fun p => |p.1|)).sum := by
      have : pairs.map (fun p => |p.1 - p.2|) = pairs.map (fun p => 2 * |p.1|) := by
        apply List.map_congr_left
        intro p hp
        rw [hinv p hp]
        rw [sub_neg_eq_add, ← two_mul, abs_mul]
        norm_num
      rw [this, ← List.sum_map_mul_left]
    have havg : avgAbsDiff samples =
        2 * ((pairs.map (fun p => |p.1|)).sum / (pairs.length : ℚ)) := by
      unfold avgAbsDiff
      rw [← hpairs, if_pos (Nat.pos_of_ne_zero hn), hsum, mul_div_assoc]
    clear hpairs
    have hbig : ¬ avgAbsDiff samples < 1 / 1000000 := by
      rw [havg]
      push_neg
      linarith
    unfold stereoOf
    rw [if_pos (hcond samples hlen), if_neg hbig]

/-- Witness for C9: a concrete identical-channel stereo signal triggers the
tag. -/
theorem c9_stereo_check_witness :
    stereoOf [1/2, 1/2, 3/5, 3/5] 2 = StereoInfo.channelsIdentical :=
  c9_stereo_check.2.2.2.1 [1/2, 1/2, 3/5, 3/5] (by norm_num)
    (by
      intro p hp
      simp only [checkedPairs, strideAt, List.enum, List.enumFrom, List.filter,
        List.map, List.zip, List.zipWith, List.take] at hp
      norm_num at hp
      rcases hp with h | h <;> simp [h])

/-- Claim C1 (counterexample): a loaded stereo waveform with an odd number of
samples (so `len(samples) % channels != 0`) is not reported as a decode
error; it passes validation outright under the default thresholds. -/
theorem c1_counterexample :
    ([PyFloat.val (1/2), .val (-1/2), .val (3/10)].length % 2 ≠ 0) ∧
    (validate_one defaultCfg
      ⟨true, 44, .ok ⟨[.val (1/2), .val (-1/2), .val (3/10)], 10, 2⟩⟩).1 = true ∧
    (validate_one defaultCfg
      ⟨true, 44, .ok ⟨[.val (1/2), .val (-1/2), .val (3/10)], 10, 2⟩⟩).2.isDecodeErr
      = false := by
  refine ⟨by norm_num, ?_⟩
  have : validate_one defaultCfg
      ⟨true, 44, .ok ⟨[.val (1/2), .val (-1/2), .val (3/10)], 10, 2⟩⟩
      = (true, .ok (14/75) (1/2) (1/10) 10 2
          (_channel_stats [1/2, -(1/2), 3/10] 2)
          (stereoOf [1/2, -(1/2), 3/10] 2)) := by
    norm_num [validate_one, defaultCfg, ratSamples, PyFloat.toRat, PyFloat.nonFinite,
      _stats, peakOf, stdLe, durationBad, durationOf, max_def, abs, List.cons_ne_nil]
  rw [this]
  exact ⟨rfl, rfl⟩

/-- Claim C1 (amended): validation performs no `len(samples) % channels`
check.  A successfully decoded waveform is never reported as a decode error;
in a passing verdict the diagnostic uses the floored sample count
`len(samples) // max(channels, 1)` for the duration and strided per-channel
extraction, silently dropping a trailing partial frame. -/
theorem c1_no_divisibility_check :
    (∀ (cfg : Cfg) (f : AudioFile) (w : Waveform), f.load = .ok w →
      (validate_one cfg f).2.isDecodeErr = false) ∧
    (∀ (cfg : Cfg) (f : AudioFile) (w : Waveform),
      f.present = true → f.load = .ok w → (validate_one cfg f).1 = true →
      (validate_one cfg f).2 =
        Msg.ok (_stats (ratSamples w)).2 (peakOf (ratSamples w)) (durationOf w)
          w.rate w.channels (_channel_stats (ratSamples w) w.channels)
          (stereoOf (ratSamples w) w.channels)) ∧
    (∀ w : Waveform,
      durationOf w =
        if w.rate > 0 then ((w.samples.length / max w.channels 1 : ℕ) : ℚ) / (w.rate : ℚ)
        else 0) := by
  refine ⟨?_, ?_, fun _ => rfl⟩
  · intro cfg f w hl
    rcases f with ⟨present, size, load⟩
    simp only at hl
    subst hl
    simp only [validate_one]
    split_ifs <;> rfl
  · intro cfg f w hp hl hpass
    rcases f with ⟨present, size, load⟩
    simp only at hp hl
    subst hp; subst hl
    simp only [validate_one] at hpass ⊢
    split_ifs at hpass ⊢ <;> simp_all

/-- Witness for C1 (amended) at the same odd-length stereo waveform as the
counterexample. -/
theorem c1_no_divisibility_check_witness :
    (validate_one defaultCfg
      ⟨true, 44, .ok ⟨[.val (1/2), .val (-1/2), .val (3/10)], 10, 2⟩⟩).2.isDecodeErr
      = false :=
  c1_no_divisibility_check.1 defaultCfg
    ⟨true, 44, .ok ⟨[.val (1/2), .val (-1/2), .val (3/10)], 10, 2⟩⟩
    ⟨[.val (1/2), .val (-1/2), .val (3/10)], 10, 2⟩ rfl

/-! ### Claim C2 -/

/-- An update-or-append step grows the association list by at most one. -/
lemma dictInsert_length_le (d : List (String × Entry)) (k : String) (v : Entry) :
    (dictInsert d k v).length ≤ d.length + 1 := by
  unfold dictInsert
  split <;> simp

/-- The `compare_files` loading loop, run from any accumulator whose keys
avoid the loaded names: with pairwise-distinct loaded names it appends
exactly the loaded entries, in input order. -/
lemma foldl_dictInsert_eq :
    ∀ (paths : List NamedFile) (d : List (String × Entry)),
      ((loadedOf paths).map Prod.fst).Nodup →
      (∀ k ∈ (loadedOf paths).map Prod.fst, k ∉ d.map Prod.fst) →
      paths.foldl
        (fun d p =>
          match loadEntry p.file with
          | none => d
          | some e => dictInsert d p.name e) d
        = d ++ loadedOf paths := by
  intro paths
  induction paths with
  | nil =>
    intro d _ _
    simp [loadedOf]
  | cons p rest ih =>
    intro d hnodup hdisj
    cases he : loadEntry p.file with
    | none =>
      have h1 : loadedOf (p :: rest) = loadedOf rest := by
        simp [loadedOf, he]
      rw [h1] at hnodup hdisj ⊢
      simp only [List.foldl_cons, he]
      exact ih d hnodup hdisj
    | some e =>
      have h1 : loadedOf (p :: rest) = (p.name, e) :: loadedOf rest := by
        simp [loadedOf, he]
      rw [h1] at hnodup hdisj ⊢
      simp only [List.map_cons, List.nodup_cons] at hnodup
      have hk : p.name ∉ d.map Prod.fst := hdisj p.name (by simp)
      have hins : dictInsert d p.name e = d ++ [(p.name, e)] := by
        unfold dictInsert
        rw [if_neg hk]
      have hdisj' : ∀ k ∈ (loadedOf rest).map Prod.fst,
          k ∉ (d ++ [(p.name, e)]).map Prod.fst := by
        intro k hkmem
        rw [List.map_append, List.mem_append]
        push_neg
        refine ⟨hdisj k (by simp [hkmem]), ?_⟩
        simp only [List.map_cons, List.map_nil, List.mem_singleton]
        intro hkp
        exact hnodup.1 (hkp ▸ hkmem)
      simp only [List.foldl_cons, he, hins]
      rw [ih (d ++ [(p.name, e)]) hnodup.2 hdisj']
      simp

/-- Without any distinctness assumption, the `results` dict has at most as
many entries as there are loaded files. -/
lemma foldl_dictInsert_length_le :
    ∀ (paths : List NamedFile) (d : List (String × Entry)),
      (paths.foldl
        (fun d p =>
          match loadEntry p.file with
          | none => d
          | some e => dictInsert d p.name e) d).length
        ≤ d.length + (loadedOf paths).length := by
  intro paths
  induction paths with
  | nil =>
    intro d
    simp [loadedOf]
  | cons p rest ih =>
    intro d
    cases he : loadEntry p.file with
    | none =>
      have h1 : loadedOf (p :: rest) = loadedOf rest := by
        simp [loadedOf, he]
      rw [h1]
      simp only [List.foldl_cons, he]
      exact ih d
    | some e =>
      have h1 : loadedOf (p :: rest) = (p.name, e) :: loadedOf rest := by
        simp [loadedOf, he]
      rw [h1]
      simp only [List.foldl_cons, he, List.length_cons]
      have h2 := ih (dictInsert d p.name e)
      have h3 := dictInsert_length_le d p.name e
      omega

/-- Claim C2 (amended): with pairwise-distinct names among the loaded
files, at least 2 loaded files produce the full report — header, one
labelled summary line per loaded file in input order, then the comparison
metrics of the first two loaded files; fewer than 2 loaded files produce
the empty report. -/
theorem c2_comparison_report :
    (∀ (paths : List NamedFile) (p1 p2 : String × Entry)
        (rest : List (String × Entry)),
      ((loadedOf paths).map Prod.fst).Nodup →
      loadedOf paths = p1 :: p2 :: rest →
      compare_files paths =
        ReportLine.header ::
          ((loadedOf paths).map summaryLine ++ [mkComparison p1 p2])) ∧
    (∀ paths : List NamedFile, (loadedOf paths).length < 2 →
      compare_files paths = []) := by
  constructor
  · intro paths p1 p2 rest hnodup hloaded
    have hres : resultsOf paths = loadedOf paths := by
      unfold resultsOf
      simpa using foldl_dictInsert_eq paths [] hnodup (by simp)
    have hple : (loadedOf paths).length ≤ paths.length :=
      List.length_filterMap_le _ _
    have hp2 : ¬ paths.length < 2 := by
      rw [hloaded] at hple
      simp only [List.length_cons] at hple
      omega
    unfold compare_files
    rw [hres, hloaded]
    rw [if_neg hp2, if_neg (by simp)]
  · intro paths hlt
    unfold compare_files
    split_ifs with h1 h2
    · rfl
    · rfl
    · exfalso
      have := foldl_dictInsert_length_le paths []
      unfold resultsOf at h2
      simp only [List.length_nil, Nat.zero_add] at this
      omega

/-- Claim C2 (counterexample): two distinct, existing, decodable files that
share a basename collapse to one dict entry, so the report is empty even
though 2 files were loaded. -/
theorem c2_counterexample :
    (loadEntry ⟨true, 4, .ok ⟨[.val 1], 1, 1⟩⟩).isSome = true ∧
    (loadEntry ⟨true, 4, .ok ⟨[.val (1/2), .val 1], 1, 1⟩⟩).isSome = true ∧
    compare_files
      [⟨"x.wav", ⟨true, 4, .ok ⟨[.val 1], 1, 1⟩⟩⟩,
       ⟨"x.wav", ⟨true, 4, .ok ⟨[.val (1/2), .val 1], 1, 1⟩⟩⟩] = [] := by
  refine ⟨rfl, rfl, ?_⟩
  have hres : resultsOf
      [⟨"x.wav", ⟨true, 4, .ok ⟨[.val 1], 1, 1⟩⟩⟩,
       ⟨"x.wav", ⟨true, 4, .ok ⟨[.val (1/2), .val 1], 1, 1⟩⟩⟩]
      = [("x.wav",
          ((_stats (ratSamples ⟨[.val (1/2), .val 1], 1, 1⟩)).1,
            (_stats (ratSamples ⟨[.val (1/2), .val 1], 1, 1⟩)).2,
            peakOf (ratSamples ⟨[.val (1/2), .val 1], 1, 1⟩)))] := by
    simp [resultsOf, loadEntry, dictInsert]
  unfold compare_files
  rw [hres]
  norm_num

/-- Witness for C2 at two distinct-name decodable files: the full
four-line report. -/
theorem c2_comparison_report_witness :
    compare_files
      [⟨"a.wav", ⟨true, 4, .ok ⟨[.val 1], 1, 1⟩⟩⟩,
       ⟨"b.wav", ⟨true, 4, .ok ⟨[.val (1/2), .val 1], 1, 1⟩⟩⟩] =
      ReportLine.header ::
        ((loadedOf
            [⟨"a.wav", ⟨true, 4, .ok ⟨[.val 1], 1, 1⟩⟩⟩,
             ⟨"b.wav", ⟨true, 4, .ok ⟨[.val (1/2), .val 1], 1, 1⟩⟩⟩]).map summaryLine
          ++ [mkComparison
              ("a.wav",
                ((_stats (ratSamples ⟨[.val 1], 1, 1⟩)).1,
                  (_stats (ratSamples ⟨[.val 1], 1, 1⟩)).2,
                  peakOf (ratSamples ⟨[.val 1], 1, 1⟩)))
              ("b.wav",
                ((_stats (ratSamples ⟨[.val (1/2), .val 1], 1, 1⟩)).1,
                  (_stats (ratSamples ⟨[.val (1/2), .val 1], 1, 1⟩)).2,
                  peakOf (ratSamples ⟨[.val (1/2), .val 1], 1, 1⟩)))]) :=
  c2_comparison_report.1
    [⟨"a.wav", ⟨true, 4, .ok ⟨[.val 1], 1, 1⟩⟩⟩,
     ⟨"b.wav", ⟨true, 4, .ok ⟨[.val (1/2), .val 1], 1, 1⟩⟩⟩]
    ("a.wav",
      ((_stats (ratSamples ⟨[.val 1], 1, 1⟩)).1,
        (_stats (ratSamples ⟨[.val 1], 1, 1⟩)).2,
        peakOf (ratSamples ⟨[.val 1], 1, 1⟩)))
    ("b.wav",
      ((_stats (ratSamples ⟨[.val (1/2), .val 1], 1, 1⟩)).1,
        (_stats (ratSamples ⟨[.val (1/2), .val 1], 1, 1⟩)).2,
        peakOf (ratSamples ⟨[.val (1/2), .val 1], 1, 1⟩)))
    []
    (by simp [loadedOf, loadEntry])
    (by simp [loadedOf, loadEntry])

/-! ### Claims C5 and C10 -/

/-- Every adjusted magnitude bin is at least the added epsilon `1e-10`. -/
lemma adjMags_mem_ge (x : List ℝ) : ∀ m ∈ adjMags x, 1 / 10 ^ 10 ≤ m := by
  intro m hm
  unfold adjMags at hm
  rcases List.mem_map.mp hm with ⟨m0, hm0, rfl⟩
  rcases List.mem_map.mp (List.mem_of_mem_drop hm0) with ⟨k, _, rfl⟩
  have : 0 ≤ rfftMag x k := Complex.abs.nonneg _
  linarith

/-- The adjusted spectrum has `len/2` bins (bin count `len/2 + 1`, DC
dropped). -/
lemma adjMags_length (x : List ℝ) : (adjMags x).length = x.length / 2 := by
  unfold adjMags
  simp

/-- At least 256 samples leave a non-empty adjusted spectrum. -/
lemma adjMags_ne_nil (x : List ℝ) (h : 256 ≤ x.length) : adjMags x ≠ [] := by
  have hl : (adjMags x).length = x.length / 2 := adjMags_length x
  intro hnil
  rw [hnil] at hl
  simp at hl
  omega

/-- A list of values all at least `1e-10` has arithmetic mean at least
`1e-10`. -/
lemma arithMean_ge_eps (mags : List ℝ) (hne : mags ≠ [])
    (h : ∀ m ∈ mags, 1 / 10 ^ 10 ≤ m) : 1 / 10 ^ 10 ≤ arithMean mags := by
  unfold arithMean
  have hn : mags.length ≠ 0 := by simpa using hne
  have hl : 0 < (mags.length : ℝ) := by
    exact_mod_cast Nat.pos_of_ne_zero hn
  rw [le_div_iff₀ hl]
  have h1 : (mags.map (fun _ => (1 / 10 ^ 10 : ℝ))).sum ≤ (mags.map (fun m => m)).sum :=
    List.sum_le_sum (fun i hi => h i hi)
  rw [List.map_const', List.sum_replicate, nsmul_eq_mul, List.map_id'] at h1
  linarith

/-- AM-GM for a list of positive reals: the geometric mean computed through
logarithms is at most the arithmetic mean. -/
lemma geoMean_le_arithMean (l : List ℝ) (hne : l ≠ []) (hpos : ∀ x ∈ l, 0 < x) :
    geoMean l ≤ arithMean l := by
  have hn : l.length ≠ 0 := by simpa using hne
  have hnR : (l.length : ℝ) ≠ 0 := Nat.cast_ne_zero.mpr hn
  have hget : ∀ i : Fin l.length, 0 < l.get i := fun i => hpos _ (l.get_mem i.1 i.2)
  have hsumlog : (l.map Real.log).sum = ∑ i : Fin l.length, Real.log (l.get i) := by
    conv_lhs => rw [← List.ofFn_get l]
    rw [List.map_ofFn, Fin.sum_ofFn]
    simp [Function.comp]
  have hsum : l.sum = ∑ i : Fin l.length, l.get i := by
    conv_lhs => rw [← List.ofFn_get l]
    rw [Fin.sum_ofFn]
  have key := Real.geom_mean_le_arith_mean_weighted Finset.univ
    (fun _ : Fin l.length => (l.length : ℝ)⁻¹) (fun i => l.get i)
    (fun i _ => by positivity)
    (by
      rw [Finset.sum_const, Finset.card_univ, Fintype.card_fin, nsmul_eq_mul]
      field_simp)
    (fun i _ => (hget i).le)
  have hprod : (∏ i : Fin l.length, (l.get i) ^ ((l.length : ℝ)⁻¹)) = geoMean l := by
    have hterm : ∀ i : Fin l.length,
        (l.get i) ^ ((l.length : ℝ)⁻¹) =
          Real.exp (Real.log (l.get i) * (l.length : ℝ)⁻¹) :=
      fun i => Real.rpow_def_of_pos (hget i) _
    rw [Finset.prod_congr rfl (fun i _ => hterm i), ← Real.exp_sum]
    unfold geoMean
    rw [hsumlog, div_eq_mul_inv, Finset.sum_mul]
  have hrhs : (∑ i : Fin l.length, (l.length : ℝ)⁻¹ * l.get i) = arithMean l := by
    unfold arithMean
    rw [hsum, ← Finset.mul_sum, div_eq_mul_inv]
    exact mul_comm _ _
  rw [hprod, hrhs] at key
  exact key

/-- Claim C5: the spectral-flatness estimate is the sentinel `-1` exactly
when the FFT facility is unavailable or fewer than 256 samples remain after
channel reduction, and otherwise lies in the closed interval `[0, 1]`. -/
theorem c5_spectral_flatness_range :
    ∀ (npAvailable : Bool) (samples : List ℝ) (channels : ℕ),
      (_spectral_flatness npAvailable samples channels = -1 ↔
        (npAvailable = false ∨ (channelReduce samples channels).length < 256)) ∧
      (¬(npAvailable = false ∨ (channelReduce samples channels).length < 256) →
        0 ≤ _spectral_flatness npAvailable samples channels ∧
        _spectral_flatness npAvailable samples channels ≤ 1) := by
  intro npAvailable samples channels
  unfold _spectral_flatness
  cases npAvailable with
  | false =>
    rw [if_pos rfl]
    exact ⟨iff_of_true rfl (Or.inl rfl), fun h => absurd (Or.inl rfl) h⟩
  | true =>
    rw [if_neg (by simp)]
    by_cases hlen : (channelReduce samples channels).length < 256
    · rw [if_pos hlen]
      exact ⟨iff_of_true rfl (Or.inr hlen), fun h => absurd (Or.inr hlen) h⟩
    · rw [if_neg hlen]
      push_neg at hlen
      have hnot : ¬(False ∨ (channelReduce samples channels).length < 256) := by
        rintro (h | h)
        · exact h
        · omega
      have hpre : 256 ≤ ((channelReduce samples channels).take 65536).length := by
        rw [List.length_take]
        omega
      set x := (channelReduce samples channels).take 65536 with hx
      have hne : adjMags x ≠ [] := adjMags_ne_nil x hpre
      have hmem := adjMags_mem_ge x
      have ham : 1 / 10 ^ 10 ≤ arithMean (adjMags x) :=
        arithMean_ge_eps (adjMags x) hne hmem
      have hampos : 0 < arithMean (adjMags x) := by
        have h0 : (0 : ℝ) < 1 / 10 ^ 10 := by norm_num
        linarith
      have hgm : 0 < geoMean (adjMags x) := Real.exp_pos _
      have hle : geoMean (adjMags x) ≤ arithMean (adjMags x) :=
        geoMean_le_arithMean (adjMags x) hne
          (fun m hm => lt_of_lt_of_le (by norm_num) (hmem m hm))
      have hval : (0 : ℝ) ≤ geoMean (adjMags x) / arithMean (adjMags x) ∧
          geoMean (adjMags x) / arithMean (adjMags x) ≤ 1 :=
        ⟨div_nonneg hgm.le hampos.le, (div_le_one hampos).mpr hle⟩
      split_ifs with hguard
      · exact ⟨iff_of_false (by norm_num) hnot, fun _ => by norm_num⟩
      · refine ⟨iff_of_false ?_ hnot, fun _ => hval⟩
        intro heq
        rw [heq] at hval
        linarith [hval.1]

/-- Witness for C5: a concrete all-zero 256-sample mono signal with the FFT
facility available has its flatness inside `[0, 1]`. -/
theorem c5_spectral_flatness_range_witness :
    0 ≤ _spectral_flatness true (List.replicate 256 (0 : ℝ)) 1 ∧
    _spectral_flatness true (List.replicate 256 (0 : ℝ)) 1 ≤ 1 :=
  (c5_spectral_flatness_range true (List.replicate 256 (0 : ℝ)) 1).2
    (by
      rintro (h | h)
      · exact absurd h (by simp)
      · rw [show channelReduce (List.replicate 256 (0 : ℝ)) 1 = List.replicate 256 0 from
            by unfold channelReduce; rw [if_neg (by norm_num)]] at h
        rw [List.length_replicate] at h
        omega)

/-- Any bin of the transform of an all-zero signal vanishes. -/
lemma rfftMag_replicate_zero (m k : ℕ) : rfftMag (List.replicate m (0 : ℝ)) k = 0 := by
  unfold rfftMag
  rw [Finset.sum_eq_zero, map_zero]
  intro j _
  have hz : (List.replicate m (0 : ℝ)).getD j 0 = 0 := by
    unfold List.getD
    rw [List.get?_eq_getElem?, List.getElem?_replicate]
    split <;> rfl
  rw [hz]
  norm_num

/-- The adjusted magnitude spectrum of an all-zero signal is the constant
epsilon list. -/
lemma adjMags_replicate_zero (m : ℕ) :
    adjMags (List.replicate m (0 : ℝ)) = List.replicate (m / 2) (1 / 10 ^ 10 : ℝ) := by
  unfold adjMags
  rw [List.length_replicate]
  have h1 : (List.range (m / 2 + 1)).map (rfftMag (List.replicate m (0 : ℝ)))
      = List.replicate (m / 2 + 1) (0 : ℝ) := by
    rw [List.eq_replicate_iff]
    constructor
    · simp
    · intro b hb
      rcases List.mem_map.mp hb with ⟨k, _, rfl⟩
      exact rfftMag_replicate_zero m k
  rw [h1, List.drop_replicate, List.map_replicate, zero_add]
  norm_num

/-- The arithmetic mean of a non-trivial constant list is the constant. -/
lemma arithMean_replicate (k : ℕ) (hk : k ≠ 0) (c : ℝ) :
    arithMean (List.replicate k c) = c := by
  unfold arithMean
  rw [List.sum_replicate, List.length_replicate, nsmul_eq_mul]
  have : (k : ℝ) ≠ 0 := Nat.cast_ne_zero.mpr hk
  field_simp

/-- The geometric mean of a non-trivial constant positive list is the
constant. -/
lemma geoMean_replicate (k : ℕ) (hk : k ≠ 0) (c : ℝ) (hc : 0 < c) :
    geoMean (List.replicate k c) = c := by
  unfold geoMean
  rw [List.map_replicate, List.sum_replicate, List.length_replicate, nsmul_eq_mul]
  have hkR : (k : ℝ) ≠ 0 := Nat.cast_ne_zero.mpr hk
  rw [mul_div_cancel_left₀ _ hkR]
  exact Real.exp_log hc

/-- Claim C10: the epsilon added to every magnitude bin makes the
arithmetic mean at least `1e-10`, so the near-silent guard
(`arithmetic mean < 1e-10`, returning `0.0`) can never trigger; an
all-zero signal of at least 256 channel-reduced samples with the FFT
facility available therefore has spectral flatness exactly `1`, not `0`. -/
theorem c10_epsilon_guard_unreachable :
    (∀ (samples : List ℝ) (channels : ℕ),
      256 ≤ (channelReduce samples channels).length →
      ¬ arithMean (adjMags ((channelReduce samples channels).take 65536)) < 1 / 10 ^ 10) ∧
    (∀ n : ℕ, 256 ≤ n → _spectral_flatness true (List.replicate n (0 : ℝ)) 1 = 1) := by
  constructor
  · intro samples channels hlen
    have hpre : 256 ≤ ((channelReduce samples channels).take 65536).length := by
      rw [List.length_take]
      omega
    have hne := adjMags_ne_nil _ hpre
    have ham := arithMean_ge_eps _ hne (adjMags_mem_ge _)
    linarith
  · intro n hn
    have hcr : channelReduce (List.replicate n (0 : ℝ)) 1 = List.replicate n 0 := by
      unfold channelReduce
      rw [if_neg (by norm_num)]
    unfold _spectral_flatness
    rw [if_neg (by simp), hcr, List.length_replicate]
    rw [if_neg (by omega), List.take_replicate]
    have hk : min 65536 n / 2 ≠ 0 := by omega
    rw [adjMags_replicate_zero (min 65536 n)]
    rw [arithMean_replicate _ hk _, geoMean_replicate _ hk _ (by norm_num)]
    rw [if_neg (by norm_num)]
    norm_num

/-- Witness for C10 at the concrete all-zero 256-sample signal. -/
theorem c10_epsilon_guard_unreachable_witness :
    _spectral_flatness true (List.replicate 256 (0 : ℝ)) 1 = 1 :=
  c10_epsilon_guard_unreachable.2 256 (by norm_num)

end ValidateAudio
